import Mathlib

/-!
# Verification of the openclaw-memos-lifecycle-plugin core

A shallow embedding, in Lean 4, of the pure core of the plugin:

* the smart-retrieval pipeline of `src/lib/retrieval.js`
  (`preRetrievalDecision`, `filterBySufficiency`, `segmentConversation`);
* the reranker fallback logic of `lib/reranker.js` (`rerankMemories`);
* the content-hash deduplication cache of `lib/client.js`
  (`computeContentHash`, `isDuplicateMemory`, `markMemoryAdded`);
* the append-only task reconciliation of `src/lib/task-manager.js`
  (`createTask`, `findTasks`);
* the todo auto-remind cooldown step of the context-injection hook.

JavaScript strings are modelled as `List Char` (UTF-16 length and code-point
length agree on every character appearing in the embedded data, all of which
is in the Basic Multilingual Plane).  JavaScript `Date.now()` timestamps are
`Nat` parameters.  Asynchronous calls that can reject are modelled as
`Except`-valued inputs, so a handler's catch-blocks become total case
analysis.  Process-wide mutable state (the dedup cache, cooldown
timestamps) is threaded explicitly.
-/

/-! ## JavaScript string primitives -/

/-- JS whitespace test for the characters that occur in this code base
(the `\s` class of the regexes used: space, tab, newline, carriage return). -/
def isWSChar (c : Char) : Bool :=
  c == ' ' || c == '\t' || c == '\n' || c == '\r'

/-- One character of JS `String.prototype.toLowerCase()`, for the two
alphabets the pattern lists use: ASCII `A`–`Z` and Cyrillic `А`–`Я`, `Ё`. -/
def lowerChar (c : Char) : Char :=
  if 'A' ≤ c && c ≤ 'Z' then Char.ofNat (c.toNat + 32)
  else if 0x410 ≤ c.toNat && c.toNat ≤ 0x42F then Char.ofNat (c.toNat + 32)
  else if c.toNat == 0x401 then Char.ofNat 0x451
  else c

/-- JS `s.toLowerCase()` over the modelled alphabets. -/
def toLowerL (l : List Char) : List Char := l.map lowerChar

/-- JS `s.trim()`: strip leading and trailing whitespace. -/
def trimL (l : List Char) : List Char :=
  ((l.dropWhile isWSChar).reverse.dropWhile isWSChar).reverse

/-- Does `l` start with `pat`?  (JS `s.startsWith(pat)`.) -/
def startsWithSeq : List Char → List Char → Bool
  | [], _ => true
  | _ :: _, [] => false
  | p :: ps, c :: cs => p == c && startsWithSeq ps cs

/-- Does `l` contain `pat` as a contiguous substring?  (JS `s.includes(pat)`.) -/
def containsSeq (pat : List Char) : List Char → Bool
  | [] => startsWithSeq pat []
  | c :: rest => startsWithSeq pat (c :: rest) || containsSeq pat rest

/-- JS `s.split(/\s+/)`: fields separated by maximal whitespace runs.  A
leading (resp. trailing) whitespace run produces an empty first (resp. last)
field, exactly as in JS; `""` splits to `[""]`. -/
def jsSplitWS (l : List Char) : List (List Char) := go [] l
where
  go (acc : List Char) : List Char → List (List Char)
    | [] => [acc.reverse]
    | c :: rest =>
      if isWSChar c then acc.reverse :: go [] (rest.dropWhile isWSChar)
      else go (c :: acc) rest
  termination_by l => l.length
  decreasing_by
    · simp_wf
      exact Nat.lt_succ_of_le (List.dropWhile_sublist isWSChar |>.length_le)
    · simp_wf

/-- JS truthy-or on strings (`a || b` where `a` may be `undefined` or `""`,
both falsy). -/
def jsOrS (a : Option String) (b : String) : String :=
  match a with
  | some s => if s = "" then b else s
  | none => b

/-! ## `lib/retrieval.js` — pre-retrieval decision -/

def NO_RETRIEVE_PATTERNS_EN : List (List Char) :=
  (["hello", "hi ", "hey", "good morning", "good evening", "good night",
    "thanks", "thank you", "ok", "okay", "bye", "goodbye",
    "how are you", "what's up", "sure", "got it", "understood",
    "yes", "no", "agree", "cool", "nice", "great"]).map String.data

def NO_RETRIEVE_PATTERNS_RU : List (List Char) :=
  (["привет", "здравствуй", "добр", "спасибо", "благодар",
    "пока", "хорошо", "ладно", "окей", "ок ", "да ", "нет ",
    "понял", "ясно", "круто", "отлично", "супер", "угу"]).map String.data

def FORCE_RETRIEVE_PATTERNS_EN : List (List Char) :=
  (["remember", "recall", "you said", "we discussed", "last time",
    "previously", "my preference", "what did", "when did",
    "you told me", "as before", "like last"]).map String.data

def FORCE_RETRIEVE_PATTERNS_RU : List (List Char) :=
  (["помнишь", "вспомни", "ты говорил", "мы обсуждали", "в прошлый",
    "ранее", "как раньше", "моё предпочт", "что ты", "когда мы",
    "как обычно", "как всегда"]).map String.data

/-- The `isCasual` test of `preRetrievalDecision`: the lowercased prompt
contains some casual-language pattern (either language). -/
def matchesCasual (lower : List Char) : Bool :=
  NO_RETRIEVE_PATTERNS_EN.any (fun p => containsSeq p lower) ||
  NO_RETRIEVE_PATTERNS_RU.any (fun p => containsSeq p lower)

/-- The explicit-memory-reference test: the lowercased prompt contains some
force pattern (either language). -/
def matchesForce (lower : List Char) : Bool :=
  FORCE_RETRIEVE_PATTERNS_EN.any (fun p => containsSeq p lower) ||
  FORCE_RETRIEVE_PATTERNS_RU.any (fun p => containsSeq p lower)

inductive RetrievalDecision where
  | skip
  | force
  | retrieve
deriving DecidableEq, Repr

/-- `preRetrievalDecision(prompt)` from `src/lib/retrieval.js:47`:
`skip` for tiny prompts, then the short-casual check, then the force-pattern
check, then the longer-casual check, else `retrieve`. -/
def preRetrievalDecision (prompt : String) : RetrievalDecision :=
  if prompt.data.length < 8 then .skip
  else
    let lower := trimL (toLowerL prompt.data)
    if lower.length < 15 ∧ matchesCasual lower then .skip
    else if matchesForce lower then .force
    else if lower.length < 30 ∧ (jsSplitWS lower).length ≤ 3 ∧ matchesCasual lower then .skip
    else .retrieve

/-! ## `lib/retrieval.js` — conversation segmentation -/

/-- One flattened conversation turn (`{role, text}`). -/
structure Msg where
  role : String
  text : String
deriving DecidableEq, Repr

/-- The scanning loop of `segmentConversation` (`src/lib/retrieval.js:201`).
Returns the completed segments pushed so far and the final `current`
accumulator.  A segment is cut when the accumulated chunk has reached
`minSegment` at an assistant→user role switch, or unconditionally at
`maxSegment`. -/
def segLoop (minS maxS : Nat) (current : List Msg) : List Msg → List (List Msg) × List Msg
  | [] => ([], current)
  | m :: rest =>
    let cur := current ++ [m]
    let isBreak : Bool := decide (minS ≤ cur.length) && (m.role == "assistant") &&
      (match rest with
       | r :: _ => r.role == "user"
       | [] => false)
    if isBreak ∨ maxS ≤ cur.length then
      let p := segLoop minS maxS [] rest
      (cur :: p.1, p.2)
    else
      segLoop minS maxS cur rest

/-- `segments[segments.length - 1].push(...current)`: append `t` to the last
segment of a non-empty segment list (on an empty list it just yields `[t]`,
a case the caller's guard excludes). -/
def appendToLast : List (List Msg) → List Msg → List (List Msg)
  | [], t => [t]
  | [s], t => [s ++ t]
  | s :: s' :: ss, t => s :: appendToLast (s' :: ss) t

/-- `segmentConversation(flat, {minSegment, maxSegment})` from
`src/lib/retrieval.js:194`: inputs no longer than `maxSegment` come back as
a single segment; otherwise the scan loop runs and a short trailing chunk is
merged into the previous segment. -/
def segmentConversation (flat : List Msg) (minS maxS : Nat) : List (List Msg) :=
  if flat.length ≤ maxS then [flat]
  else
    let p := segLoop minS maxS [] flat
    if 0 < p.2.length then
      if p.2.length < minS ∧ p.1 ≠ [] then appendToLast p.1 p.2
      else p.1 ++ [p.2]
    else p.1

/-! ## `lib/retrieval.js` — sufficiency filtering -/

/-- A search-result candidate, restricted to the fields
`filterBySufficiency` and the reranker read: the three legacy text field
variants. -/
structure MemRec where
  memory : Option String
  content : Option String
  memory_content : Option String
deriving DecidableEq, Repr

/-- `mem.memory || mem.content || mem.memory_content || ""` (the inline
accessor of `filterBySufficiency`, also `getMemoryContent` of
`lib/utils.js`). -/
def getMemoryContent (mem : MemRec) : String :=
  jsOrS mem.memory (jsOrS mem.content (jsOrS mem.memory_content ""))

/-- The meta-record test of `filterBySufficiency`
(`src/lib/retrieval.js:144`): the text starts with a brace and contains the
substring `"type"` (with its quotes). -/
def looksMeta (content : List Char) : Bool :=
  startsWithSeq "\x7b".data content && containsSeq "\"type\"".data content

/-- `_overlapRatio(a, b)` (`src/lib/retrieval.js:170`): Jaccard overlap of
the whitespace-split word sets, as an exact rational (the JS float is a
ratio of two small integers). -/
def overlapRatioJS (a b : List Char) : ℚ :=
  let setA := (jsSplitWS a).dedup
  let setB := (jsSplitWS b).dedup
  let intersection := (setA.filter (fun w => setB.contains w)).length
  let union := setA.length + setB.length - intersection
  if 0 < union then (intersection : ℚ) / (union : ℚ) else 0

/-- The accept/reject loop of `filterBySufficiency`
(`src/lib/retrieval.js:139`), with `seenTexts` threaded explicitly. -/
def filterGo (minLength : Nat) (maxDuplicateOverlap : ℚ) (seenTexts : List (List Char)) :
    List MemRec → List MemRec
  | [] => []
  | mem :: rest =>
    let content := (getMemoryContent mem).data
    if content.length = 0 ∨ content.length < minLength then
      filterGo minLength maxDuplicateOverlap seenTexts rest
    else if looksMeta content then
      filterGo minLength maxDuplicateOverlap seenTexts rest
    else
      let contentLower := (toLowerL content).take 200
      if seenTexts.any (fun seen => maxDuplicateOverlap < overlapRatioJS contentLower seen) then
        filterGo minLength maxDuplicateOverlap seenTexts rest
      else
        mem :: filterGo minLength maxDuplicateOverlap (seenTexts ++ [contentLower]) rest

/-- `filterBySufficiency(memories, {minLength, maxDuplicateOverlap})` from
`src/lib/retrieval.js:132`. -/
def filterBySufficiency (memories : List MemRec) (minLength : Nat)
    (maxDuplicateOverlap : ℚ) : List MemRec :=
  filterGo minLength maxDuplicateOverlap [] memories

/-! ## `lib/reranker.js` — LLM reranking with fail-open fallback -/

def MIN_MEMORIES_TO_RERANK : Nat := 3

/-- Outcome of the completion call plus `parseJSON` in `rerankMemories`
(`lib/reranker.js:156`–`170`):
* `callFailure` — `callApi` rejected (timeout, HTTP error); control reaches
  the `catch`;
* `notArray` — the response text did not yield a JSON array
  (`parseJSON` returned `null`, or a non-array value);
* `indexArray items` — a JSON array was parsed; each element is recorded
  after the JS normalisation `typeof idx === "string" ? parseInt(idx, 10) :
  idx` as `some n` when it is integer-valued and `none` otherwise
  (float, `NaN` from a non-numeric string, object, …). -/
inductive RerankResponse where
  | callFailure
  | notArray
  | indexArray (items : List (Option Int))
deriving DecidableEq, Repr

/-- The validation loop of `rerankMemories` (`lib/reranker.js:176`–`184`):
keep integer indices in `[0, len)`, dropping duplicates via the `seen` set;
order of first appearance is preserved. -/
def collectValid (len : Nat) (seen : List Int) : List (Option Int) → List Nat
  | [] => []
  | none :: rest => collectValid len seen rest
  | some n :: rest =>
    if 0 ≤ n ∧ n < (len : Int) ∧ n ∉ seen then
      n.toNat :: collectValid len (seen ++ [n]) rest
    else
      collectValid len seen rest

/-- `rerankMemories(query, memories)` from `lib/reranker.js:148`, with the
network/parse outcome made explicit.  Lists shorter than
`MIN_MEMORIES_TO_RERANK` are returned untouched; a call failure or an
unparseable response falls back to the original list; a parsed index array
is validated, an empty valid set yields `[]`, and otherwise the model-given
order of valid indices selects the result. -/
def rerankMemories {α : Type} (memories : List α) (resp : RerankResponse) : List α :=
  if memories.length < MIN_MEMORIES_TO_RERANK then memories
  else
    match resp with
    | .callFailure => memories
    | .notArray => memories
    | .indexArray items =>
      let validIndices := collectValid memories.length [] items
      if validIndices.length = 0 then []
      else validIndices.filterMap (fun i => memories[i]?)

/-! ## `lib/client.js` — content-hash deduplication cache -/

/-- An entry of the `_recentHashes` map: `{count, lastSeen}`. -/
structure DedupEntry where
  count : Nat
  lastSeen : Nat
deriving DecidableEq, Repr

/-- Association-list lookup (JS `Map.prototype.get`). -/
def aget {κ α : Type} [DecidableEq κ] (k : κ) : List (κ × α) → Option α
  | [] => none
  | (k', v) :: rest => if k' = k then some v else aget k rest

/-- Association-list insert/overwrite (JS `Map.prototype.set`: overwrite in
place when the key exists, else append in insertion order). -/
def aset {κ α : Type} [DecidableEq κ] (k : κ) (v : α) : List (κ × α) → List (κ × α)
  | [] => [(k, v)]
  | (k', v') :: rest => if k' = k then (k, v) :: rest else (k', v') :: aset k v rest

/-- JS `s.replace(/\s+/g, " ")`: collapse every maximal whitespace run into
one space (`prevWS` tracks whether the previous character belonged to a
run already replaced). -/
def collapseWSAux (prevWS : Bool) : List Char → List Char
  | [] => []
  | c :: rest =>
    if isWSChar c then
      if prevWS then collapseWSAux true rest
      else ' ' :: collapseWSAux true rest
    else c :: collapseWSAux false rest

/-- The normalisation inside `computeContentHash` (`lib/client.js:95`):
`content.toLowerCase().replace(/\s+/g, " ").trim()`. -/
def normalizeContent (content : List Char) : List Char :=
  trimL (collapseWSAux false (toLowerL content))

/-- `computeContentHash(content, type)` (`lib/client.js:94`) computes
`SHA256(type + ":" + normalized)[:16]`.  The model keeps the hash
pre-image `type ++ ":" ++ normalized` itself as the cache key: the
truncated digest is used only as a map key, and the model treats it as
collision-free. -/
def computeContentHash (content ty : List Char) : List Char :=
  ty ++ ':' :: normalizeContent content

def DEDUP_WINDOW_MS : Nat := 300000

/-- The `_recentHashes` map, in insertion order. -/
abbrev DedupCache := List (List Char × DedupEntry)

/-- `isDuplicateMemory(text, type)` (`lib/client.js:108`): texts shorter
than 20 characters are never duplicates; on a hit within the window the
entry's `count` is bumped and `lastSeen` slides to `now`.  Returns the
boolean together with the (possibly mutated) cache. -/
def isDuplicateMemory (text ty : String) (now : Nat) (cache : DedupCache) :
    Bool × DedupCache :=
  if text.data.length < 20 then (false, cache)
  else
    let hash := computeContentHash text.data ty.data
    match aget hash cache with
    | some entry =>
      if now - entry.lastSeen < DEDUP_WINDOW_MS then
        (true, aset hash ⟨entry.count + 1, now⟩ cache)
      else (false, cache)
    | none => (false, cache)

/-- `markMemoryAdded(text, type)` (`lib/client.js:125`): texts shorter than
20 characters are ignored; otherwise the hash entry is overwritten with
`{count: 1, lastSeen: now}` and, once the map exceeds 500 entries, entries
older than the window are swept. -/
def markMemoryAdded (text ty : String) (now : Nat) (cache : DedupCache) : DedupCache :=
  if text.data.length < 20 then cache
  else
    let c1 := aset (computeContentHash text.data ty.data) ⟨1, now⟩ cache
    if 500 < c1.length then
      c1.filter (fun kv => decide (now - DEDUP_WINDOW_MS ≤ kv.2.lastSeen))
    else c1

/-! ## `lib/task-manager.js` — append-only task reconciliation -/

/-- The structured `info` side-channel of a task / task-update record
(`lib/utils.js` `getInfo` result), with the fields `task-manager.js`
reads and writes. -/
structure TaskInfo where
  _type : Option String := none
  task_id : Option String := none
  task_status : Option String := none
  title : Option String := none
  priority : Option String := none
  due_date : Option String := none
  start_date : Option String := none
  desc : Option String := none
  project : Option String := none
  items : Option (List String) := none
  context : Option String := none
  task_created_at : Option String := none
  task_completed_at : Option String := none
  outcome : Option String := none
deriving DecidableEq, Repr

/-- A fetched memory record as `findTasks` consumes it: text fields plus
the `info` metadata in its two possible layouts (`metadata.info` nested, or
flat `info`). -/
structure TaskRec where
  memory : Option String := none
  content : Option String := none
  metadata_info : Option TaskInfo := none
  info : Option TaskInfo := none
deriving DecidableEq, Repr

/-- `getInfo(mem)` from `lib/utils.js:184`:
`mem?.metadata?.info || mem?.info || {}` (objects are truthy). -/
def getInfo (mem : TaskRec) : TaskInfo :=
  (mem.metadata_info.orElse (fun _ => mem.info)).getD {}

/-- JS falsiness of an optional string (`undefined` and `""`). -/
def jsFalsyS : Option String → Bool
  | none => true
  | some s => decide (s = "")

/-- JS `>` on two optional strings: lexicographic by code unit when both
are strings, `false` whenever either side is `undefined`. -/
def listLtChar : List Char → List Char → Bool
  | [], [] => false
  | [], _ :: _ => true
  | _ :: _, [] => false
  | a :: as, b :: bs =>
    if a.toNat < b.toNat then true
    else if b.toNat < a.toNat then false
    else listLtChar as bs

/-- `info.task_completed_at > existing.task_completed_at` (string ISO
compare). -/
def strGtOpt (a b : Option String) : Bool :=
  match a, b with
  | some x, some y => listLtChar y.data x.data
  | _, _ => false

/-- One step of the update-index construction of `findTasks`
(`src/lib/task-manager.js:77`–`85`): keep the latest update per `task_id`,
where an entry with no (or empty) `task_completed_at` is always superseded
and a new update only supersedes a timestamped one when its own timestamp
is present and strictly later. -/
def updStep (m : List (String × TaskInfo)) (u : TaskRec) : List (String × TaskInfo) :=
  let info := getInfo u
  match info.task_id with
  | none => m
  | some tid =>
    if tid = "" then m
    else
      match aget tid m with
      | none => aset tid info m
      | some existing =>
        if jsFalsyS existing.task_completed_at ||
            (!(jsFalsyS info.task_completed_at) &&
              strGtOpt info.task_completed_at existing.task_completed_at) then
          aset tid info m
        else m

/-- The update index `task_id → latest update info`. -/
def buildUpdateMap (updates : List TaskRec) : List (String × TaskInfo) :=
  updates.foldl updStep []

/-- A reconciled task view (the object pushed at
`src/lib/task-manager.js:103`). -/
structure TaskView where
  taskId : String
  title : String
  task_status : String
  priority : String
  due_date : Option String := none
  start_date : Option String := none
  desc : Option String := none
  project : Option String := none
  items : Option (List String) := none
  task_created_at : Option String := none
  task_completed_at : Option String := none
  outcome : Option String := none
deriving DecidableEq, Repr

/-- `content.replace(/^TASK:\s*/, "")` (title fallback). -/
def stripTaskLabel (s : String) : String :=
  if startsWithSeq "TASK:".data s.data then
    String.mk ((s.data.drop 5).dropWhile isWSChar)
  else s

/-- One optional filter of `findTasks`: `if (f && value !== f) continue;`
(a missing or empty filter never excludes). -/
def failsFilter (f : Option String) (v : Option String) : Bool :=
  match f with
  | none => false
  | some fv => if fv = "" then false else decide (v ≠ some fv)

/-- The reconciliation loop of `findTasks`
(`src/lib/task-manager.js:90`–`117`): first creation record per `task_id`
wins (records with a falsy `task_id` are skipped, and the `seen` set is
extended before the filters run); effective status is the update's status,
else the creation record's, else `"pending"`. -/
def reconLoop (updateMap : List (String × TaskInfo))
    (status priority project : Option String) (seen : List String) :
    List TaskRec → List TaskView
  | [] => []
  | t :: rest =>
    let info := getInfo t
    match info.task_id with
    | none => reconLoop updateMap status priority project seen rest
    | some taskId =>
      if taskId = "" ∨ taskId ∈ seen then
        reconLoop updateMap status priority project seen rest
      else
        let seen' := seen ++ [taskId]
        let update := aget taskId updateMap
        let currentStatus :=
          jsOrS (update.bind (fun u => u.task_status)) (jsOrS info.task_status "pending")
        if failsFilter status (some currentStatus) then
          reconLoop updateMap status priority project seen' rest
        else if failsFilter priority info.priority then
          reconLoop updateMap status priority project seen' rest
        else if failsFilter project info.project then
          reconLoop updateMap status priority project seen' rest
        else
          { taskId := taskId,
            title := jsOrS info.title (stripTaskLabel (jsOrS t.memory (jsOrS t.content ""))),
            task_status := currentStatus,
            priority := jsOrS info.priority "P2",
            due_date := info.due_date,
            start_date := info.start_date,
            desc := info.desc,
            project := info.project,
            items := info.items,
            task_created_at := info.task_created_at,
            task_completed_at := update.bind (fun u => u.task_completed_at),
            outcome := update.bind (fun u => u.outcome) }
            :: reconLoop updateMap status priority project seen' rest

/-- `findTasks({status, priority, project})` from
`src/lib/task-manager.js:62`, with the two search outcomes made explicit:
each `.catch` turns a failed fetch into the empty list for that half, and
reconciliation proceeds on whatever remains. -/
def findTasks (tasksRes updatesRes : Except String (List TaskRec))
    (status priority project : Option String) : List TaskView :=
  let tasks := match tasksRes with
    | .ok l => l
    | .error _ => []
  let updates := match updatesRes with
    | .ok l => l
    | .error _ => []
  reconLoop (buildUpdateMap updates) status priority project [] tasks

/-! ## `lib/task-manager.js` — createTask -/

/-- The value `createTask` resolves with. -/
structure CreateTaskResult where
  taskId : Option String
  title : String
  priority : String
  task_status : String
deriving DecidableEq, Repr

/-- One awaited `addMemoryAwait(content, tags, info)` call. -/
structure WriteRec where
  content : String
  tags : List String
  info : TaskInfo
deriving DecidableEq, Repr

/-- Result of a `createTask` run: the resolved value, the writes performed,
and the dedup cache afterwards. -/
structure CreateTaskOutcome where
  result : CreateTaskResult
  writes : List WriteRec
  cache : DedupCache
deriving DecidableEq, Repr

/-- JS `if (x) info.f = x` for an optional string option. -/
def optIfTruthy (o : Option String) : Option String :=
  match o with
  | some s => if s = "" then none else some s
  | none => none

/-- JS `if (due_date) info.due_date = normalizeDate(due_date) || due_date`,
with the external `normalizeDate` of `lib/ticktick.js` abstracted as a
parameter (it returns a normalised string or `null`). -/
def normField (o : Option String) (normDate : String → Option String) : Option String :=
  match o with
  | some d => if d = "" then none else some (jsOrS (normDate d) d)
  | none => none

/-- `createTask(title, opts)` from `src/lib/task-manager.js:27`: a dedup
hit short-circuits with `taskId: null` and status `"duplicate"` and writes
nothing; otherwise one creation record with status `"pending"` is awaited
and the fresh id returned.  `freshId` stands for `generateTaskId()`,
`nowStr` for `normalizeDate(new Date())`, `now` for `Date.now()`. -/
def createTask (title priority : String)
    (due_date start_date desc project : Option String)
    (items : Option (List String)) (context : Option String)
    (freshId nowStr : String) (normDate : String → Option String)
    (now : Nat) (cache : DedupCache) : CreateTaskOutcome :=
  let content := "TASK: " ++ title
  let dup := isDuplicateMemory content "task" now cache
  if dup.1 then
    { result := { taskId := none, title := title, priority := priority,
                  task_status := "duplicate" },
      writes := [], cache := dup.2 }
  else
    let info : TaskInfo :=
      { _type := some "task", task_id := some freshId,
        task_status := some "pending", title := some title,
        priority := some priority, task_created_at := some nowStr,
        due_date := normField due_date normDate,
        start_date := normField start_date normDate,
        desc := optIfTruthy desc,
        project := optIfTruthy project,
        items := match items with
          | some l => if 0 < l.length then some l else none
          | none => none,
        context := optIfTruthy context }
    { result := { taskId := some freshId, title := title, priority := priority,
                  task_status := "pending" },
      writes := [{ content := content, tags := ["task", "pending"], info := info }],
      cache := markMemoryAdded content "task" now dup.2 }

/-! ## Context-injection hook — todo auto-remind cooldown -/

/-- `formatTaskList(tasks)` from `src/lib/task-manager.js:150`. -/
def formatTaskList (tasks : List TaskView) : String :=
  if tasks.length = 0 then ""
  else
    let line := fun (t : TaskView) =>
      let emoji := if t.priority = "P0" then "🔴"
        else if t.priority = "P1" then "🟠" else "🟡"
      let proj := match t.project with
        | some p => if p = "" then "" else " [" ++ p ++ "]"
        | none => ""
      let due := match t.due_date with
        | some d => if d = "" then "" else " ⏰ " ++ d
        | none => ""
      emoji ++ " " ++ t.title ++ " [" ++ t.priority ++ "]" ++ proj ++ due
    let lines := "📋 Tasks:" :: (tasks.take 8).map line
    let lines := if 8 < tasks.length then
        lines ++ ["  ... and " ++ toString (tasks.length - 8) ++ " more"]
      else lines
    String.intercalate "\n" lines

def TODO_REMIND_COOLDOWN_MS : Nat := 5 * 60 * 1000

def TODO_REMIND_COOLDOWN_MS_LEGACY : Nat := 30 * 60 * 1000

/-- Step 6 of the current context-injection handler (`hooks/context-injection.js`,
the `v3.x` revision with per-fetch try/catch): when the cooldown has
elapsed, the pending-task fetch runs inside its own `try`; the cooldown
timestamp is assigned AFTER the awaited fetch, so a rejected fetch leaves
it unchanged and the reminder retries on the next prompt.  Returns the
reminder text and the new `state.lastTodoRemindTime`. -/
def todoRemindStep (now lastTodoRemindTime : Nat)
    (fetchResult : Except String (List TaskView)) : String × Nat :=
  if TODO_REMIND_COOLDOWN_MS < now - lastTodoRemindTime then
    match fetchResult with
    | .ok pendingTasks =>
      (if 0 < pendingTasks.length then formatTaskList pendingTasks else "", now)
    | .error _ => ("", lastTodoRemindTime)
  else ("", lastTodoRemindTime)

/-- Step 6 of the earlier handler revision
(`src/hooks/context-injection.js:138`–`145`): `state.lastTodoRemindTime =
now; // set first to prevent race` runs BEFORE the awaited fetch, so the
timestamp is committed whether or not the fetch succeeds (a rejection
propagates to the handler's outer catch with the timestamp already set). -/
def todoRemindStepLegacy (now lastTodoRemindTime : Nat)
    (fetchResult : Except String (List TaskView)) : String × Nat :=
  if TODO_REMIND_COOLDOWN_MS_LEGACY < now - lastTodoRemindTime then
    match fetchResult with
    | .ok pendingTasks =>
      (if 0 < pendingTasks.length then formatTaskList pendingTasks else "", now)
    | .error _ => ("", now)
  else ("", lastTodoRemindTime)

-- ═══════════════════════════════ Theorems ═══════════════════════════════

/-! ### Segmentation lemmas -/

theorem segLoop_join (minS maxS : Nat) :
    ∀ (rest current : List Msg),
      ((segLoop minS maxS current rest).1).flatten ++ (segLoop minS maxS current rest).2
        = current ++ rest := by
  intro rest
  induction rest with
  | nil => intro current; simp [segLoop]
  | cons m rest ih =>
    intro current
    simp only [segLoop]
    split
    · have h := ih []
      simp only [List.flatten_cons, List.append_assoc, h]
      simp
    · have h := ih (current ++ [m])
      simp only [h, List.append_assoc]
      simp

theorem segLoop_ne_nil (minS maxS : Nat) :
    ∀ (rest current : List Msg), ∀ s ∈ (segLoop minS maxS current rest).1, s ≠ [] := by
  intro rest
  induction rest with
  | nil => intro current s hs; simp [segLoop] at hs
  | cons m rest ih =>
    intro current s hs
    simp only [segLoop] at hs
    split at hs
    · simp only [List.mem_cons] at hs
      rcases hs with h | h
      · subst h; simp
      · exact ih [] s h
    · exact ih (current ++ [m]) s hs

theorem segLoop_bounds (minS maxS : Nat) (hmm : minS ≤ maxS) :
    ∀ (rest current : List Msg), current.length < maxS →
      ∀ s ∈ (segLoop minS maxS current rest).1, minS ≤ s.length ∧ s.length ≤ maxS := by
  intro rest
  induction rest with
  | nil => intro current _ s hs; simp [segLoop] at hs
  | cons m rest ih =>
    intro current hcur s hs
    have hmax0 : 0 < maxS := Nat.lt_of_le_of_lt (Nat.zero_le _) hcur
    simp only [segLoop] at hs
    split at hs
    · rename_i hcond
      simp only [List.mem_cons] at hs
      rcases hs with h | h
      · subst h
        have hlen : (current ++ [m]).length ≤ maxS := by
          simp only [List.length_append, List.length_singleton]
          omega
        refine ⟨?_, hlen⟩
        rcases hcond with hbreak | hge
        · simp only [Bool.and_eq_true, decide_eq_true_eq] at hbreak
          exact hbreak.1.1
        · omega
      · exact ih [] (by simpa using hmax0) s h
    · exact ih (current ++ [m]) (by rename_i hcond; omega) s hs

theorem appendToLast_join :
    ∀ (segs : List (List Msg)) (t : List Msg),
      (appendToLast segs t).flatten = segs.flatten ++ t := by
  intro segs
  induction segs with
  | nil => intro t; simp [appendToLast]
  | cons s ss ih =>
    intro t
    cases ss with
    | nil => simp [appendToLast]
    | cons s' ss' => simp [appendToLast, ih, List.append_assoc]

theorem appendToLast_mem_ne_nil :
    ∀ (segs : List (List Msg)) (t : List Msg),
      (∀ s ∈ segs, s ≠ []) → t ≠ [] → ∀ s ∈ appendToLast segs t, s ≠ [] := by
  intro segs
  induction segs with
  | nil =>
    intro t _ ht s hs
    simp only [appendToLast, List.mem_singleton] at hs
    subst hs; exact ht
  | cons s0 ss ih =>
    intro t hsegs ht s hs
    cases ss with
    | nil =>
      simp only [appendToLast, List.mem_singleton] at hs
      subst hs
      simp only [ne_eq, List.append_eq_nil]
      rintro ⟨-, h⟩; exact ht h
    | cons s' ss' =>
      simp only [appendToLast, List.mem_cons] at hs
      rcases hs with h | h
      · rw [h]; exact hsegs s0 (by simp)
      · exact ih t (fun x hx => hsegs x (List.mem_cons_of_mem _ hx)) ht s h

theorem appendToLast_ne_nil :
    ∀ (segs : List (List Msg)) (t : List Msg), appendToLast segs t ≠ [] := by
  intro segs t
  cases segs with
  | nil => simp [appendToLast]
  | cons s ss => cases ss <;> simp [appendToLast]

theorem appendToLast_dropLast :
    ∀ (segs : List (List Msg)) (t : List Msg), segs ≠ [] →
      (appendToLast segs t).dropLast = segs.dropLast := by
  intro segs
  induction segs with
  | nil => intro t h; exact absurd rfl h
  | cons s0 ss ih =>
    intro t _
    cases ss with
    | nil => simp [appendToLast]
    | cons s' ss' =>
      have hne := appendToLast_ne_nil (s' :: ss') t
      rcases List.exists_cons_of_ne_nil hne with ⟨x, xs, hx⟩
      simp only [appendToLast, hx, List.dropLast_cons₂]
      rw [← hx, ih t (by simp)]

/-- C4 (counterexample): the 9-character prompt `"ok recall"` contains the
force pattern `"recall"`, yet `preRetrievalDecision` answers `skip`, because
the short-casual check (`length < 15` and the casual pattern `"ok "`) runs
before the force check.  The claim says every ≥ 8-character prompt containing
a force pattern yields `force`. -/
theorem preRetrievalDecision_force_not_unconditional :
    8 ≤ "ok recall".data.length ∧
    matchesForce (trimL (toLowerL "ok recall".data)) = true ∧
    preRetrievalDecision "ok recall" = .skip := by
  refine ⟨by decide, by decide, by decide⟩

/-- C4 (amended): for every prompt of length ≥ 8 that, lowercased and
trimmed, contains a force pattern, `preRetrievalDecision` returns `force`
unless the short-casual rule fires first, i.e. provided the lowercased
trimmed prompt is not both shorter than 15 characters and a casual-pattern
match.  In particular the force check takes precedence over the second
(longer-prompt) casual check. -/
theorem preRetrievalDecision_force_precedence (prompt : String)
    (h8 : 8 ≤ prompt.data.length)
    (hforce : matchesForce (trimL (toLowerL prompt.data)) = true)
    (hshort : ¬ ((trimL (toLowerL prompt.data)).length < 15 ∧
        matchesCasual (trimL (toLowerL prompt.data)) = true)) :
    preRetrievalDecision prompt = .force := by
  unfold preRetrievalDecision
  rw [if_neg (by omega)]
  simp only
  rw [if_neg (by simpa using hshort), if_pos hforce]

/-- C4 witness: the example prompt of the spec,
`"what did you say about the database last time?"`, is long, matches the
force list (`"what did"`), does not trip the short-casual rule, and indeed
forces retrieval. -/
theorem preRetrievalDecision_force_precedence_witness :
    preRetrievalDecision "what did you say about the database last time?" = .force :=
  preRetrievalDecision_force_precedence _ (by decide) (by decide) (by decide)

/-- C2 (counterexample): on the empty message list, `segmentConversation`
returns `[flat]`, i.e. one empty segment, so the claim's
"every returned segment has length ≥ 1" fails for the empty input. -/
theorem segmentConversation_empty_input :
    segmentConversation ([] : List Msg) 4 12 = [[]] ∧
    ¬ (∀ s ∈ segmentConversation ([] : List Msg) 4 12, 1 ≤ s.length) := by
  refine ⟨by decide, by decide⟩

/-- C2 (amended): for every input and every `minSegment`/`maxSegment`, the
segments returned by `segmentConversation` concatenate back to exactly the
input (no message dropped or duplicated, order preserved); and for every
NON-EMPTY input, every returned segment is non-empty.  (On the empty input
the function returns the single empty segment `[[]]`.) -/
theorem segmentConversation_partition (flat : List Msg) (minS maxS : Nat) :
    (segmentConversation flat minS maxS).flatten = flat ∧
    (flat ≠ [] → ∀ s ∈ segmentConversation flat minS maxS, s ≠ []) := by
  unfold segmentConversation
  split
  · constructor
    · simp
    · intro hne s hs
      simp only [List.mem_singleton] at hs
      rw [hs]; exact hne
  · have hjoin := segLoop_join minS maxS flat []
    have hnn := segLoop_ne_nil minS maxS flat []
    simp only
    split
    · rename_i hpos
      split
      · rename_i hmerge
        constructor
        · rw [appendToLast_join]
          simpa using hjoin
        · intro _
          exact appendToLast_mem_ne_nil _ _ hnn
            (by intro h; rw [h] at hpos; simp at hpos)
      · constructor
        · simp only [List.flatten_append, List.flatten_cons, List.flatten_nil,
            List.append_nil]
          simpa using hjoin
        · intro _ s hs
          simp only [List.mem_append, List.mem_singleton] at hs
          rcases hs with h | h
          · exact hnn s h
          · rw [h]; intro hc; rw [hc] at hpos; simp at hpos
    · rename_i hzero
      have h2 : (segLoop minS maxS [] flat).2 = [] := by
        have := Nat.eq_zero_of_not_pos hzero
        exact List.length_eq_zero.1 this
      constructor
      · rw [h2] at hjoin
        simpa using hjoin
      · intro _
        exact hnn

/-- C2 witness: a concrete one-message conversation partitions back to
itself with every segment non-empty. -/
theorem segmentConversation_partition_witness :
    (segmentConversation [Msg.mk "user" "hello world"] 4 12).flatten
        = [Msg.mk "user" "hello world"] ∧
    (segmentConversation [Msg.mk "user" "hello world"] 4 12).all
        (fun s => !s.isEmpty) = true := by
  refine ⟨(segmentConversation_partition _ 4 12).1, List.all_eq_true.2 ?_⟩
  intro s hs
  have h := (segmentConversation_partition [Msg.mk "user" "hello world"] 4 12).2
    (by decide) s hs
  simpa [List.isEmpty_iff] using h

/-- C3: when the input is strictly longer than `maxSegment` and
`1 ≤ minSegment ≤ maxSegment`, every segment except possibly the final one
has length in `[minSegment, maxSegment]`. -/
theorem segmentConversation_bounds (flat : List Msg) (minS maxS : Nat)
    (h1 : 1 ≤ minS) (h2 : minS ≤ maxS) (hL : maxS < flat.length) :
    ∀ s ∈ (segmentConversation flat minS maxS).dropLast,
      minS ≤ s.length ∧ s.length ≤ maxS := by
  have hmax0 : 0 < maxS := Nat.lt_of_lt_of_le h1 h2
  have hbounds := segLoop_bounds minS maxS h2 flat [] (by simpa using hmax0)
  unfold segmentConversation
  split
  · omega
  · simp only
    split
    · split
      · rename_i hmerge
        intro s hs
        rw [appendToLast_dropLast _ _ hmerge.2] at hs
        exact hbounds s ((List.dropLast_sublist _).subset hs)
      · intro s hs
        rw [List.dropLast_concat] at hs
        exact hbounds s hs
    · intro s hs
      exact hbounds s ((List.dropLast_sublist _).subset hs)

/-- C3 witness: thirteen identical turns with `minSegment = 4`,
`maxSegment = 12` give non-final segments within `[4, 12]`. -/
theorem segmentConversation_bounds_witness :
    (segmentConversation (List.replicate 13 (Msg.mk "user" "m")) 4 12).dropLast.all
      (fun s => decide (4 ≤ s.length) && decide (s.length ≤ 12)) = true := by
  refine List.all_eq_true.2 ?_
  intro s hs
  have h := segmentConversation_bounds (List.replicate 13 (Msg.mk "user" "m")) 4 12
    (by decide) (by decide) (by decide) s hs
  simp [h.1, h.2]

/-! ### Sufficiency filter: meta-record rejection -/

theorem filterGo_no_meta (minLength : Nat) (maxOv : ℚ) :
    ∀ (rest : List MemRec) (seen : List (List Char)) (m : MemRec),
      m ∈ filterGo minLength maxOv seen rest →
      looksMeta (getMemoryContent m).data = false := by
  intro rest
  induction rest with
  | nil => intro seen m hm; simp [filterGo] at hm
  | cons mem rest ih =>
    intro seen m hm
    simp only [filterGo] at hm
    split at hm
    · exact ih seen m hm
    · split at hm
      · exact ih seen m hm
      · rename_i hmeta
        split at hm
        · exact ih seen m hm
        · simp only [List.mem_cons] at hm
          rcases hm with h | h
          · rw [h]; exact Bool.not_eq_true _ ▸ (Bool.eq_false_iff.2 hmeta)
          · exact ih _ m h

/-- C8: a candidate whose extracted text starts with a brace and contains
the substring `"type"` is never present in the output of
`filterBySufficiency`, for every candidate list and every
`minLength`/`maxDuplicateOverlap` option. -/
theorem filterBySufficiency_meta_rejected (memories : List MemRec)
    (minLength : Nat) (maxOv : ℚ) (m : MemRec)
    (hmeta : looksMeta (getMemoryContent m).data = true) :
    m ∉ filterBySufficiency memories minLength maxOv := by
  intro hm
  have := filterGo_no_meta minLength maxOv memories [] m hm
  rw [this] at hmeta
  exact Bool.false_ne_true hmeta

/-- C8 witness: a serialized tool-trace record (well over `minLength`
characters) is dropped from a concrete candidate list. -/
theorem filterBySufficiency_meta_rejected_witness :
    (MemRec.mk (some "\x7b\"type\":\"tool_trace\",\"tool\":\"exec\",\"result\":\"ok\"\x7d") none none)
      ∉ filterBySufficiency
        [MemRec.mk (some "\x7b\"type\":\"tool_trace\",\"tool\":\"exec\",\"result\":\"ok\"\x7d") none none]
        20 (7 / 10) :=
  filterBySufficiency_meta_rejected _ 20 (7 / 10) _ (by decide)

/-! ### Reranker fail-open -/

/-- C5 (counterexample): with three candidates and a successfully parsed
index array whose single entry `99` is out of range (malformed indices),
`rerankMemories` returns `[]`, not the original candidate list as the claim
states. -/
theorem rerankMemories_malformed_indices_empty :
    rerankMemories ([0, 1, 2] : List Nat) (.indexArray [some 99]) = [] ∧
    rerankMemories ([0, 1, 2] : List Nat) (.indexArray [some 99]) ≠ [0, 1, 2] := by
  refine ⟨by decide, by decide⟩

/-- C5 (amended): for every candidate list of length ≥ 3, a failed
completion call or a response that does not parse to a JSON array returns
the original candidates unchanged; a successfully parsed index array is
validated individually, and whenever NO valid in-range index remains —
including the parsed empty array and the all-malformed case — the result is
the empty list. -/
theorem rerankMemories_fail_open {α : Type} (memories : List α)
    (h3 : MIN_MEMORIES_TO_RERANK ≤ memories.length) :
    rerankMemories memories .callFailure = memories ∧
    rerankMemories memories .notArray = memories ∧
    rerankMemories memories (.indexArray []) = [] ∧
    (∀ items : List (Option Int), collectValid memories.length [] items = [] →
      rerankMemories memories (.indexArray items) = []) := by
  have hnot : ¬ memories.length < MIN_MEMORIES_TO_RERANK := not_lt.2 h3
  refine ⟨?_, ?_, ?_, ?_⟩
  · simp [rerankMemories, hnot]
  · simp [rerankMemories, hnot]
  · simp [rerankMemories, hnot, collectValid]
  · intro items hempty
    simp [rerankMemories, hnot, hempty]

/-- C5 witness: a concrete three-element candidate list survives a call
failure and an unparseable response unchanged, and a parsed empty index
array filters everything out. -/
theorem rerankMemories_fail_open_witness :
    rerankMemories ([10, 20, 30] : List Nat) .callFailure = [10, 20, 30] ∧
    rerankMemories ([10, 20, 30] : List Nat) .notArray = [10, 20, 30] ∧
    rerankMemories ([10, 20, 30] : List Nat) (.indexArray []) = [] :=
  ⟨(rerankMemories_fail_open [10, 20, 30] (by decide)).1,
   (rerankMemories_fail_open [10, 20, 30] (by decide)).2.1,
   (rerankMemories_fail_open [10, 20, 30] (by decide)).2.2.1⟩

/-! ### Dedup cache lemmas -/

theorem aget_aset {κ α : Type} [DecidableEq κ] (k : κ) (v : α) :
    ∀ m : List (κ × α), aget k (aset k v m) = some v := by
  intro m
  induction m with
  | nil => simp [aset, aget]
  | cons kv rest ih =>
    obtain ⟨k', v'⟩ := kv
    simp only [aset]
    split
    · simp [aget]
    · rename_i hne
      simp only [aget, if_neg hne]
      exact ih

theorem aget_filter {κ α : Type} [DecidableEq κ] (k : κ) (v : α)
    (p : κ × α → Bool) :
    ∀ m : List (κ × α), aget k m = some v → p (k, v) = true →
      aget k (m.filter p) = some v := by
  intro m
  induction m with
  | nil => intro h; simp [aget] at h
  | cons kv rest ih =>
    obtain ⟨k', v'⟩ := kv
    intro hget hp
    simp only [aget] at hget
    by_cases hk : k' = k
    · rw [if_pos hk] at hget
      injection hget with hv
      subst hk; subst hv
      rw [List.filter_cons, if_pos hp]
      simp [aget]
    · rw [if_neg hk] at hget
      rw [List.filter_cons]
      split
      · simp only [aget, if_neg hk]
        exact ih hget hp
      · exact ih hget hp

/-- C6: mark-then-check round trip of the dedup cache.  For texts of at
least 20 characters, `markMemoryAdded` followed by `isDuplicateMemory` on
the same `(text, type)` answers `true` strictly inside the 5-minute window
and `false` once the window has elapsed (no intervening hits); texts
shorter than 20 characters are complete no-ops for both operations. -/
theorem dedup_round_trip (text ty : String) (cache : DedupCache) (now now' : Nat) :
    (20 ≤ text.data.length →
      ((now' - now < DEDUP_WINDOW_MS →
          (isDuplicateMemory text ty now' (markMemoryAdded text ty now cache)).1 = true) ∧
       (DEDUP_WINDOW_MS ≤ now' - now →
          (isDuplicateMemory text ty now' (markMemoryAdded text ty now cache)).1 = false))) ∧
    (text.data.length < 20 →
      markMemoryAdded text ty now cache = cache ∧
      isDuplicateMemory text ty now' cache = (false, cache)) := by
  constructor
  · intro h20
    have hget : aget (computeContentHash text.data ty.data)
        (markMemoryAdded text ty now cache) = some ⟨1, now⟩ := by
      unfold markMemoryAdded
      rw [if_neg (by omega)]
      simp only
      split
      · refine aget_filter _ _ _ _ (aget_aset _ _ _) ?_
        simp only [decide_eq_true_eq]
        omega
      · exact aget_aset _ _ _
    constructor
    · intro hlt
      unfold isDuplicateMemory
      rw [if_neg (by omega)]
      simp only [hget]
      rw [if_pos hlt]
    · intro hge
      unfold isDuplicateMemory
      rw [if_neg (by omega)]
      simp only [hget]
      rw [if_neg (by omega)]
  · intro hlt20
    refine ⟨?_, ?_⟩
    · unfold markMemoryAdded
      rw [if_pos hlt20]
    · unfold isDuplicateMemory
      rw [if_pos hlt20]

/-- C6 witness: a concrete 31-character text marked at `t = 900` is a
duplicate at `t = 1000`, no longer one at `t = 300900`, and a 10-character
text is ignored by `markMemoryAdded`. -/
theorem dedup_round_trip_witness :
    (isDuplicateMemory "a sufficiently long memory text" "memory" 1000
        (markMemoryAdded "a sufficiently long memory text" "memory" 900 [])).1 = true ∧
    (isDuplicateMemory "a sufficiently long memory text" "memory" 300900
        (markMemoryAdded "a sufficiently long memory text" "memory" 900 [])).1 = false ∧
    markMemoryAdded "short text" "memory" 900 [] = [] :=
  ⟨((dedup_round_trip "a sufficiently long memory text" "memory" [] 900 1000).1
      (by decide)).1 (by decide),
   ((dedup_round_trip "a sufficiently long memory text" "memory" [] 900 300900).1
      (by decide)).2 (by decide),
   ((dedup_round_trip "short text" "memory" [] 900 0).2 (by decide)).1⟩

/-! ### findTasks: totality under fetch failure -/

/-- C9: a failed creation-record fetch (resp. update fetch) behaves exactly
as an empty list for that half, and both fetches failing yields the empty
result — `findTasks` is a total function of the two fetch outcomes and
never re-raises. -/
theorem findTasks_degrades (status priority project : Option String)
    (e e' : String) (tr ur : Except String (List TaskRec)) :
    findTasks (.error e) ur status priority project
        = findTasks (.ok []) ur status priority project ∧
    findTasks tr (.error e') status priority project
        = findTasks tr (.ok []) status priority project ∧
    findTasks (.error e) (.error e') status priority project = [] := by
  refine ⟨rfl, ?_, rfl⟩
  cases tr <;> rfl

/-! ### createTask: dedup short-circuit -/

/-- C10: when the dedup cache flags `"TASK: " + title` as recently added,
`createTask` writes nothing and resolves with `taskId: null` and status
`"duplicate"`; otherwise it performs exactly one awaited write of a
creation record (`_type: "task"`, status `"pending"`, the fresh id) and
resolves with the fresh id and status `"pending"`. -/
theorem createTask_dedup_shortcircuit (title priority : String)
    (due_date start_date desc project : Option String)
    (items : Option (List String)) (context : Option String)
    (freshId nowStr : String) (normDate : String → Option String)
    (now : Nat) (cache : DedupCache) :
    ((isDuplicateMemory ("TASK: " ++ title) "task" now cache).1 = true →
      (createTask title priority due_date start_date desc project items context
          freshId nowStr normDate now cache).writes = [] ∧
      (createTask title priority due_date start_date desc project items context
          freshId nowStr normDate now cache).result.taskId = none ∧
      (createTask title priority due_date start_date desc project items context
          freshId nowStr normDate now cache).result.task_status = "duplicate") ∧
    ((isDuplicateMemory ("TASK: " ++ title) "task" now cache).1 = false →
      (createTask title priority due_date start_date desc project items context
          freshId nowStr normDate now cache).result.taskId = some freshId ∧
      (createTask title priority due_date start_date desc project items context
          freshId nowStr normDate now cache).result.task_status = "pending" ∧
      (createTask title priority due_date start_date desc project items context
          freshId nowStr normDate now cache).writes.length = 1 ∧
      ∀ w ∈ (createTask title priority due_date start_date desc project items context
          freshId nowStr normDate now cache).writes,
        w.content = "TASK: " ++ title ∧
        w.info._type = some "task" ∧
        w.info.task_id = some freshId ∧
        w.info.task_status = some "pending") := by
  constructor
  · intro hdup
    refine ⟨?_, ?_, ?_⟩ <;> simp [createTask, hdup]
  · intro hdup
    refine ⟨?_, ?_, ?_, ?_⟩
    · simp [createTask, hdup]
    · simp [createTask, hdup]
    · simp [createTask, hdup]
    · intro w hw
      simp only [createTask, hdup, Bool.false_eq_true, if_false,
        List.mem_singleton] at hw
      subst hw
      exact ⟨rfl, rfl, rfl, rfl⟩

/-- C10 witness: with an empty cache the task is created (one pending write,
fresh id); after marking the same content, a second `createTask` at `t=100`
short-circuits as a duplicate with no write. -/
theorem createTask_dedup_shortcircuit_witness :
    ((createTask "refactor the auth module" "P2" none none none none none none
        "task_1" "2026-02-07" (fun _ => none) 0 []).result.taskId = some "task_1" ∧
     (createTask "refactor the auth module" "P2" none none none none none none
        "task_1" "2026-02-07" (fun _ => none) 0 []).result.task_status = "pending") ∧
    ((createTask "refactor the auth module" "P2" none none none none none none
        "task_2" "2026-02-07" (fun _ => none) 100
        (markMemoryAdded "TASK: refactor the auth module" "task" 0 [])).writes = [] ∧
     (createTask "refactor the auth module" "P2" none none none none none none
        "task_2" "2026-02-07" (fun _ => none) 100
        (markMemoryAdded "TASK: refactor the auth module" "task" 0 [])).result.taskId = none) :=
  ⟨⟨((createTask_dedup_shortcircuit "refactor the auth module" "P2" none none none none
        none none "task_1" "2026-02-07" (fun _ => none) 0 []).2 (by decide)).1,
    ((createTask_dedup_shortcircuit "refactor the auth module" "P2" none none none none
        none none "task_1" "2026-02-07" (fun _ => none) 0 []).2 (by decide)).2.1⟩,
   ⟨((createTask_dedup_shortcircuit "refactor the auth module" "P2" none none none none
        none none "task_2" "2026-02-07" (fun _ => none) 100
        (markMemoryAdded "TASK: refactor the auth module" "task" 0 [])).1 (by decide)).1,
    ((createTask_dedup_shortcircuit "refactor the auth module" "P2" none none none none
        none none "task_2" "2026-02-07" (fun _ => none) 100
        (markMemoryAdded "TASK: refactor the auth module" "task" 0 [])).1 (by decide)).2.1⟩⟩

/-! ### Todo auto-remind cooldown -/

/-- C7 (counterexample): in the handler revision at
`src/hooks/context-injection.js:139` the cooldown timestamp is assigned
BEFORE the awaited pending-task fetch ("set first to prevent race"), so
after a failed fetch with the cooldown elapsed the timestamp has moved to
`now` instead of staying unchanged — the claim's "updated only after the
fetch succeeds" fails for that revision. -/
theorem todoRemindLegacy_commits_on_failure :
    (todoRemindStepLegacy 2000000 0 (.error "search failed")).2 = 2000000 ∧
    (2000000 : Nat) ≠ 0 := by
  refine ⟨by decide, by decide⟩

/-- C7 (amended): in the current handler revision (the variant with the
per-fetch try/catch), when the cooldown has elapsed the timestamp is
committed only on fetch success: a rejected fetch leaves
`state.lastTodoRemindTime` unchanged (so the next prompt retries), a
successful fetch sets it to `now`, and within the cooldown window nothing
changes.  The earlier revision commits the timestamp before the fetch. -/
theorem todoRemindStep_commit_after_success (now last : Nat)
    (fetchResult : Except String (List TaskView)) :
    (TODO_REMIND_COOLDOWN_MS < now - last →
      ((∀ e, fetchResult = .error e → (todoRemindStep now last fetchResult).2 = last) ∧
       (∀ ts, fetchResult = .ok ts → (todoRemindStep now last fetchResult).2 = now))) ∧
    (¬ TODO_REMIND_COOLDOWN_MS < now - last →
      todoRemindStep now last fetchResult = ("", last)) := by
  constructor
  · intro hcool
    constructor
    · intro e he
      subst he
      simp [todoRemindStep, hcool]
    · intro ts hts
      subst hts
      simp [todoRemindStep, hcool]
  · intro hcool
    cases fetchResult <;> simp [todoRemindStep, hcool]

/-- C7 witness: at `now = 600000` with `last = 0` (cooldown elapsed), a
failed fetch keeps the timestamp at `0` and a successful fetch moves it to
`600000`. -/
theorem todoRemindStep_commit_after_success_witness :
    (todoRemindStep 600000 0 (.error "timeout")).2 = 0 ∧
    (todoRemindStep 600000 0 (.ok [])).2 = 600000 :=
  ⟨((todoRemindStep_commit_after_success 600000 0 (.error "timeout")).1
      (by decide)).1 "timeout" rfl,
   ((todoRemindStep_commit_after_success 600000 0 (.ok [])).1
      (by decide)).2 [] rfl⟩

/-! ### findTasks: update-status precedence -/

theorem failsFilter_none (v : Option String) : failsFilter none v = false := rfl

theorem aget_aset_ne {κ α : Type} [DecidableEq κ] (k k' : κ) (v : α) (hne : k' ≠ k) :
    ∀ m : List (κ × α), aget k (aset k' v m) = aget k m := by
  intro m
  induction m with
  | nil => simp [aset, aget, hne]
  | cons kv rest ih =>
    obtain ⟨k'', v''⟩ := kv
    simp only [aset]
    split
    · rename_i hk
      subst hk
      simp [aget, hne]
    · simp only [aget]
      split
      · rfl
      · exact ih

theorem updStep_empty_key (m : List (String × TaskInfo)) (u : TaskRec)
    (h : aget "" m = none) : aget "" (updStep m u) = none := by
  unfold updStep
  simp only
  rcases hid : (getInfo u).task_id with _ | tid
  · exact h
  · simp only
    by_cases htid : tid = ""
    · rw [if_pos htid]; exact h
    · rw [if_neg htid]
      rcases hag : aget tid m with _ | existing
      · simp only
        rw [aget_aset_ne _ _ _ htid, h]
      · simp only
        split
        · rw [aget_aset_ne _ _ _ htid, h]
        · exact h

theorem buildUpdateMap_empty_key (updates : List TaskRec) :
    aget "" (buildUpdateMap updates) = none := by
  have hgen : ∀ (l : List TaskRec) (m : List (String × TaskInfo)),
      aget "" m = none → aget "" (l.foldl updStep m) = none := by
    intro l
    induction l with
    | nil => intro m h; exact h
    | cons u rest ih =>
      intro m h
      exact ih _ (updStep_empty_key m u h)
  exact hgen updates [] rfl

theorem reconLoop_done (um : List (String × TaskInfo)) (tid : String) (u : TaskInfo)
    (hu : aget tid um = some u) (hstat : u.task_status = some "done") :
    ∀ (tasks : List TaskRec) (seen : List String),
      ∀ v ∈ reconLoop um none none none seen tasks,
        v.taskId = tid → v.task_status = "done" := by
  intro tasks
  induction tasks with
  | nil => intro seen v hv; simp [reconLoop] at hv
  | cons t rest ih =>
    intro seen v hv htidv
    simp only [reconLoop] at hv
    rcases hid : (getInfo t).task_id with _ | tid0
    · rw [hid] at hv
      exact ih seen v hv htidv
    · rw [hid] at hv
      simp only [failsFilter_none, Bool.false_eq_true, if_false] at hv
      split at hv
      · exact ih seen v hv htidv
      · simp only [List.mem_cons] at hv
        rcases hv with hveq | hv
        · subst hveq
          simp only at htidv
          subst htidv
          simp [hu, hstat, jsOrS]
        · exact ih _ v hv htidv

theorem reconLoop_exists (um : List (String × TaskInfo)) (tid : String) (htid : tid ≠ "") :
    ∀ (tasks : List TaskRec) (seen : List String),
      (∃ t ∈ tasks, (getInfo t).task_id = some tid) → tid ∉ seen →
      ∃ v ∈ reconLoop um none none none seen tasks, v.taskId = tid := by
  intro tasks
  induction tasks with
  | nil =>
    intro seen hex _
    rcases hex with ⟨t, ht, _⟩
    simp at ht
  | cons t rest ih =>
    intro seen hex hnseen
    rcases hid : (getInfo t).task_id with _ | tid0
    · simp only [reconLoop, hid]
      apply ih seen _ hnseen
      rcases hex with ⟨t0, ht0, hid0⟩
      rcases List.mem_cons.1 ht0 with rfl | hmem
      · rw [hid] at hid0; exact absurd hid0 (by simp)
      · exact ⟨t0, hmem, hid0⟩
    · simp only [reconLoop, hid]
      by_cases hguard : tid0 = "" ∨ tid0 ∈ seen
      · rw [if_pos hguard]
        apply ih seen _ hnseen
        rcases hex with ⟨t0, ht0, hid0⟩
        rcases List.mem_cons.1 ht0 with rfl | hmem
        · rw [hid] at hid0
          injection hid0 with h
          subst h
          rcases hguard with h1 | h1
          · exact absurd h1 htid
          · exact absurd h1 hnseen
        · exact ⟨t0, hmem, hid0⟩
      · rw [if_neg hguard]
        simp only [failsFilter_none, Bool.false_eq_true, if_false]
        by_cases heq : tid0 = tid
        · subst heq
          exact ⟨_, List.mem_cons_self _ _, rfl⟩
        · have hex' : ∃ t0 ∈ rest, (getInfo t0).task_id = some tid := by
            rcases hex with ⟨t0, ht0, hid0⟩
            rcases List.mem_cons.1 ht0 with rfl | hmem
            · rw [hid] at hid0
              injection hid0 with h
              exact absurd h heq
            · exact ⟨t0, hmem, hid0⟩
          have hnseen' : tid ∉ seen ++ [tid0] := by
            intro hmem
            rcases List.mem_append.1 hmem with h | h
            · exact hnseen h
            · simp only [List.mem_singleton] at h
              exact heq h.symm
          rcases ih (seen ++ [tid0]) hex' hnseen' with ⟨v, hv, hvt⟩
          exact ⟨v, List.mem_cons_of_mem _ hv, hvt⟩

/-- C1: if some creation record carries `task_id = tid` with status
`"pending"`, and the update index built from the fetched update records
maps `tid` to an update whose `task_status` is `"done"`, then `findTasks`
(no filters) returns a view for `tid`, and every view for `tid` reports
status `"done"` — the update's status wins over the creation record's. -/
theorem findTasks_status_precedence (tasks updates : List TaskRec) (tid : String)
    (hcreate : ∃ t ∈ tasks,
      (getInfo t).task_id = some tid ∧ (getInfo t).task_status = some "pending")
    (hupd : (aget tid (buildUpdateMap updates)).bind (fun u => u.task_status)
        = some "done") :
    (∃ v ∈ findTasks (.ok tasks) (.ok updates) none none none, v.taskId = tid) ∧
    (∀ v ∈ findTasks (.ok tasks) (.ok updates) none none none,
      v.taskId = tid → v.task_status = "done") := by
  obtain ⟨u, hu, hstat⟩ := Option.bind_eq_some.1 hupd
  have htid : tid ≠ "" := by
    intro h
    subst h
    rw [buildUpdateMap_empty_key] at hu
    exact Option.noConfusion hu
  have hex : ∃ t ∈ tasks, (getInfo t).task_id = some tid := by
    rcases hcreate with ⟨t, ht, h1, _⟩
    exact ⟨t, ht, h1⟩
  refine ⟨?_, ?_⟩
  · simpa only [findTasks] using
      reconLoop_exists (buildUpdateMap updates) tid htid tasks [] hex (by simp)
  · intro v hv
    simp only [findTasks] at hv
    exact reconLoop_done (buildUpdateMap updates) tid u hu hstat tasks [] v hv

/-- C1 witness: one pending creation record for `"t1"` plus one `"done"`
update for `"t1"` reconcile to a `"t1"` view reporting `"done"`. -/
theorem findTasks_status_precedence_witness :
    (findTasks
        (.ok [{ memory := some "TASK: ship the release",
                info := some { _type := some "task", task_id := some "t1",
                               task_status := some "pending",
                               title := some "ship the release",
                               priority := some "P1" } }])
        (.ok [{ info := some { _type := some "task_update", task_id := some "t1",
                               task_status := some "done",
                               task_completed_at := some "2026-02-07T00:00:00+0000" } }])
        none none none).any
      (fun v => v.taskId == "t1" && v.task_status == "done") = true := by
  obtain ⟨⟨v, hv, hvt⟩, hall⟩ :=
    findTasks_status_precedence
      [{ memory := some "TASK: ship the release",
         info := some { _type := some "task", task_id := some "t1",
                        task_status := some "pending",
                        title := some "ship the release",
                        priority := some "P1" } }]
      [{ info := some { _type := some "task_update", task_id := some "t1",
                        task_status := some "done",
                        task_completed_at := some "2026-02-07T00:00:00+0000" } }]
      "t1" (by decide) (by decide)
  refine List.any_eq_true.2 ⟨v, hv, ?_⟩
  have hd := hall v hv hvt
  simp [hvt, hd]
